import Mathlib

/-!
Shallow embedding of `app.py` (Karnataka School Finder).

The program loads a spreadsheet of school records into a pandas DataFrame,
normalizes it, filters by district, and ranks fuzzy matches of a free-text
school-name query (`fuzzy_search_in_df`).  We embed the records as a Lean
structure, DataFrames as `List Record`, and the pandas/rapidfuzz operations
as explicit list functions:

* the rapidfuzz scorer `fuzz.WRatio` is abstracted as a parameter
  `scorer : String → String → Nat` (a deterministic function of the two
  strings, as the spec's design notes require);
* `process.extract(query, choices, scorer, limit)` returns the `limit`
  best-scoring choices in descending score order, ties kept in input order —
  modelled as a stable sort by descending score followed by `take`;
* Python's stable `sorted(..., key=score, reverse=True)` and pandas
  `sort_values` are modelled with Mathlib's stable `List.insertionSort`
  on the "score at least" relation (any stable sort computes the same list);
* a Python dict comprehension is an association list looked up with
  later-bindings-win semantics (`dictGet`);
* `Series.str.contains(q, na=False)` interprets the pattern `q` as a Python
  regular expression and searches it in each string (`re.search`); it is
  embedded by `reContains`, a matcher for the fragment of regex syntax built
  from literal characters and the `.` wildcard (faithful on that fragment;
  other metacharacters and invalid-pattern errors are outside the model),
  while `strContainsSubstr` embeds Python's literal `in` containment and
  coincides with `reContains` on metacharacter-free patterns;
* string trimming / lowercasing are modelled directly on the character
  lists so that all definitions reduce in the kernel.
-/

/-- Character-list test: `p` begins the list `l`. -/
def listIsPre : List Char → List Char → Bool
  | [], _ => true
  | _ :: _, [] => false
  | a :: p, b :: l => a = b && listIsPre p l

/-- Character-list test: `p` occurs contiguously inside `l`. -/
def listHasSub (p : List Char) : List Char → Bool
  | [] => listIsPre p []
  | b :: l => listIsPre p (b :: l) || listHasSub p l

/-- Literal substring containment `pat in s` (Python `in`); this is the
substring-containment reading of the spec's fast-path test. -/
def strContainsSubstr (s pat : String) : Bool :=
  listHasSub pat.data s.data

/-- Characters that carry special meaning in Python regular expressions
(`Char.ofNat 123` and `Char.ofNat 125` are the curly braces). -/
def regexMetaChars : List Char :=
  ['.', '^', '$', '*', '+', '?', Char.ofNat 123, Char.ofNat 125, '[', ']',
   '\\', '|', '(', ')']

/-- Patterns of the modelled regex fragment: every character is either the
`.` wildcard or a literal (no other regex metacharacter occurs). -/
def inModelledFragment (pat : List Char) : Bool :=
  pat.all (fun c => c = '.' || !regexMetaChars.contains c)

/-- One-character match of the modelled regex fragment: the pattern
character `.` matches any character except a newline (Python `re` without
DOTALL); every other character matches only itself. -/
def charMatches (p c : Char) : Bool :=
  if p = '.' then c ≠ '\n' else p = c

/-- Anchored match: the pattern matches a prefix of the text. -/
def reIsPre : List Char → List Char → Bool
  | [], _ => true
  | _ :: _, [] => false
  | p :: ps, c :: cs => charMatches p c && reIsPre ps cs

/-- Unanchored search, as Python `re.search`: the pattern matches starting
at some position of the text. -/
def reHasMatch (p : List Char) : List Char → Bool
  | [] => reIsPre p []
  | c :: cs => reIsPre p (c :: cs) || reHasMatch p cs

/-- Model of pandas `Series.str.contains(q, na=False)` as used at line 139:
the query is interpreted as a regular expression and searched in the string
(`re.search`).  Modelled for the fragment of patterns built from literal
characters and the `.` wildcard; other metacharacters, and the exception a
syntactically invalid pattern raises in the program, are outside this
model. -/
def reContains (s pat : String) : Bool :=
  reHasMatch pat.data s.data

/-- Python `str.lower()` restricted to the ASCII case mapping. -/
def strLower (s : String) : String :=
  ⟨s.data.map Char.toLower⟩

/-- Trim whitespace from both ends of a character list (Python `str.strip()`). -/
def trimChars (l : List Char) : List Char :=
  ((l.dropWhile Char.isWhitespace).reverse.dropWhile Char.isWhitespace).reverse

/-- Python `str.strip()`. -/
def strTrim (s : String) : String :=
  ⟨trimChars s.data⟩

/-- One normalized school record: the row of the DataFrame after `load_data`,
including the two derived lowercase shadow columns. -/
structure Record where
  school_name : String
  village : String
  district : String
  block : String
  state_mgmt : String
  school_category : String
  school_type : String
  school_status : String
  udise_code : String
  school_name_lower : String
  village_lower : String
deriving DecidableEq, Repr

/-- A raw spreadsheet row as read by `pd.read_excel`: each expected column is
present (`some`) or absent (`none`). -/
structure RawRow where
  school_name : Option String
  village : Option String
  district : Option String
  block : Option String
  state_mgmt : Option String
  school_category : Option String
  school_type : Option String
  school_status : Option String
  udise_code : Option String
deriving DecidableEq, Repr

/-- Normalization applied per row by `load_data` (and, identically, by the
upload branch): each expected field is coerced to a string and stripped,
absent fields become `""`, and the lowercase shadow fields are derived. -/
def normalizeRow (r : RawRow) : Record :=
  let nm := strTrim (r.school_name.getD "")
  let vg := strTrim (r.village.getD "")
  { school_name := nm
    village := vg
    district := strTrim (r.district.getD "")
    block := strTrim (r.block.getD "")
    state_mgmt := strTrim (r.state_mgmt.getD "")
    school_category := strTrim (r.school_category.getD "")
    school_type := strTrim (r.school_type.getD "")
    school_status := strTrim (r.school_status.getD "")
    udise_code := strTrim (r.udise_code.getD "")
    school_name_lower := strLower nm
    village_lower := strLower vg }

/-- The normalization pipeline of `load_data` lines 57–68, applied row-wise. -/
def normalizeTable (t : List RawRow) : List Record :=
  t.map normalizeRow

/-- A data source: `none` models a missing/corrupt/unreadable spreadsheet
(`pd.read_excel` raises), `some t` a readable one with rows `t`. -/
def Source : Type := Option (List RawRow)

/-- Model of `pd.read_excel`: raises (an `Except.error`) on a missing or
malformed source, otherwise yields the raw rows. -/
def read_excel (src : Source) : Except String (List RawRow) :=
  match src with
  | none => Except.error "read failure"
  | some t => Except.ok t

/-- Lines 50–69: `load_data` wraps `pd.read_excel` in try/except and returns
an empty DataFrame on any read failure; otherwise it normalizes the table. -/
def load_data (src : Source) : List Record :=
  match read_excel src with
  | Except.error _ => []
  | Except.ok t => normalizeTable t

/-- Lines 77–87: the upload branch reads the uploaded stream with **no**
try/except (a failing read propagates as an exception) and then applies the
same normalization as `load_data`. -/
def uploadIngest (src : Source) : Except String (List Record) :=
  (read_excel src).map normalizeTable

/-- Line 9: `SCORE_THRESHOLD = 75`. -/
def SCORE_THRESHOLD : Nat := 75

/-- Line 10: `MAX_RESULTS = 5`. -/
def MAX_RESULTS : Nat := 5

/-- Lines 130–133: district filtering. The sentinel `"All Districts"` keeps
the whole DataFrame; otherwise rows whose stripped, lowercased district equals
the stripped, lowercased selection are kept. -/
def filterByDistrict (df : List Record) (d : String) : List Record :=
  if d ≠ "All Districts" then
    df.filter (fun r => strLower (strTrim r.district) = strLower (strTrim d))
  else df

/-- A record paired with its attached `match_score` column. -/
structure ScoredRecord where
  row : Record
  match_score : Nat
deriving DecidableEq, Repr

/-- Descending-score order on scored `(choice, score)` pairs. -/
def descPair (a b : String × Nat) : Prop := b.2 ≤ a.2

/-- Descending order on the `match_score` column. -/
def descRow (a b : ScoredRecord) : Prop := b.match_score ≤ a.match_score

instance : DecidableRel descPair := fun a b => Nat.decLe b.2 a.2

instance : DecidableRel descRow := fun a b => Nat.decLe b.match_score a.match_score

instance : IsTotal (String × Nat) descPair := ⟨fun a b => Nat.le_total b.2 a.2⟩

instance : IsTrans (String × Nat) descPair := ⟨fun _ _ _ h h' => Nat.le_trans h' h⟩

instance : IsTotal ScoredRecord descRow :=
  ⟨fun a b => Nat.le_total b.match_score a.match_score⟩

instance : IsTrans ScoredRecord descRow :=
  ⟨fun _ _ _ h h' => Nat.le_trans h' h⟩

/-- Line 105: `choices = df_subset['school_name'].dropna().tolist()` (after
`load_data` every name is a string, so `dropna` drops nothing). -/
def choicesOf (df : List Record) : List String :=
  df.map (fun r => r.school_name)

/-- Model of `rapidfuzz.process.extract(query, choices, scorer, limit)`:
score every choice, sort by score descending (ties in input order) and keep
the best `limit`.  Only the choice and score components of the returned
tuples are ever used by the program, so the index component is omitted. -/
def extractMatches (scorer : String → String → Nat) (q : String)
    (choices : List String) (limit : Nat) : List (String × Nat) :=
  (List.insertionSort descPair (choices.map (fun c => (c, scorer q c)))).take limit

/-- Line 107: `matches = process.extract(name_query, choices, scorer=fuzz.WRatio, limit=200)`. -/
def matchesOf (scorer : String → String → Nat) (q : String) (df : List Record) :
    List (String × Nat) :=
  extractMatches scorer q (choicesOf df) 200

/-- Line 109: `good = [m for m in matches if m[1] >= threshold]`. -/
def goodOf (scorer : String → String → Nat) (q : String) (df : List Record)
    (threshold : Nat) : List (String × Nat) :=
  (matchesOf scorer q df).filter (fun m => decide (threshold ≤ m.2))

/-- Line 111: `good_sorted = sorted(good, key=lambda x: x[1], reverse=True)[:max_results]`
(Python `sorted` is stable and `reverse=True` keeps ties in input order). -/
def goodSortedOf (scorer : String → String → Nat) (q : String) (df : List Record)
    (threshold max_results : Nat) : List (String × Nat) :=
  (List.insertionSort descPair (goodOf scorer q df threshold)).take max_results

/-- Line 114: `matched_names = [m[0] for m in good_sorted]`. -/
def matchedNamesOf (scorer : String → String → Nat) (q : String) (df : List Record)
    (threshold max_results : Nat) : List String :=
  (goodSortedOf scorer q df threshold max_results).map Prod.fst

/-- Lookup in the association list modelling the Python dict comprehension
`{m[0]: m[1] for m in good_sorted}`: later bindings overwrite earlier ones. -/
def dictGet : List (String × Nat) → String → Option Nat
  | [], _ => none
  | (k, v) :: rest, key =>
    match dictGet rest key with
    | some v' => some v'
    | none => if k = key then some v else none

/-- Line 117: `result_rows = df_subset[df_subset['school_name'].isin(matched_names)]`. -/
def resultRowsOf (scorer : String → String → Nat) (q : String) (df : List Record)
    (threshold max_results : Nat) : List Record :=
  df.filter (fun r =>
    decide (r.school_name ∈ matchedNamesOf scorer q df threshold max_results))

/-- Line 119: attach `match_score` by mapping each row's name through the
score dict (`.fillna(0)` supplies `0` on a failed lookup). -/
def scoredRowsOf (scorer : String → String → Nat) (q : String) (df : List Record)
    (threshold max_results : Nat) : List ScoredRecord :=
  (resultRowsOf scorer q df threshold max_results).map (fun r =>
    { row := r
      match_score :=
        (dictGet (goodSortedOf scorer q df threshold max_results) r.school_name).getD 0 })

/-- Line 121: `result_rows.sort_values(by='match_score', ascending=False)`,
modelled with a stable sort. -/
def sortedScoredOf (scorer : String → String → Nat) (q : String) (df : List Record)
    (threshold max_results : Nat) : List ScoredRecord :=
  List.insertionSort descRow (scoredRowsOf scorer q df threshold max_results)

/-- Helper for `drop_duplicates(subset=['school_name'], keep='first')`: keep
each row whose name has not been seen yet. -/
def dropDupAux (seen : List String) : List ScoredRecord → List ScoredRecord
  | [] => []
  | x :: xs =>
    if x.row.school_name ∈ seen then dropDupAux seen xs
    else x :: dropDupAux (x.row.school_name :: seen) xs

/-- Line 123: `result_rows.drop_duplicates(subset=['school_name'], keep='first')`. -/
def drop_duplicates (l : List ScoredRecord) : List ScoredRecord :=
  dropDupAux [] l

/-- Lines 101–124: `fuzzy_search_in_df(name_query, df_subset, threshold, max_results)`.
`name_query` is `Option String` because the Python code tests `name_query is
None` explicitly. -/
def fuzzy_search_in_df (scorer : String → String → Nat) (name_query : Option String)
    (df_subset : List Record) (threshold max_results : Nat) : List ScoredRecord :=
  match name_query with
  | none => []
  | some q =>
    if strTrim q = "" then []
    else if (goodSortedOf scorer q df_subset threshold max_results).isEmpty then []
    else drop_duplicates (sortedScoredOf scorer q df_subset threshold max_results)

/-- Lines 134–145: the search performed on the district subset.  An empty
subset short-circuits with an info message and no results; otherwise the
query is stripped and lowercased and candidates whose lowercase shadow name
matches it under `str.contains` (regex search, embedded by `reContains`) are
preferred as the scoring universe, falling back to the whole subset when
there are none. -/
def performSearch (scorer : String → String → Nat) (school_query : String)
    (subset : List Record) : List ScoredRecord :=
  if subset.isEmpty then []
  else
    let q := strLower (strTrim school_query)
    let nameHits := subset.filter (fun r => reContains r.school_name_lower q)
    if !nameHits.isEmpty then
      fuzzy_search_in_df scorer (some school_query) nameHits SCORE_THRESHOLD MAX_RESULTS
    else
      fuzzy_search_in_df scorer (some school_query) subset SCORE_THRESHOLD MAX_RESULTS

/-- Python `str.title()` on a character list: the first character of every
alphabetic run is uppercased, the rest lowercased; `prevAlpha` records whether
the previous character was alphabetic. -/
def titleChars : Bool → List Char → List Char
  | _, [] => []
  | prevAlpha, c :: cs =>
    (if prevAlpha then c.toLower else c.toUpper) :: titleChars c.isAlpha cs

/-- Python `str.title()`. -/
def titleCase (s : String) : String :=
  ⟨titleChars false s.data⟩

/-- Modelled from the spec: `classifyManagement` is described in §4.1 of the
spec but its code is not under `src/` (it belongs to another variant of the
script in this repository).  Per the spec it maps a free-text administrative
category to a closed label set by ordered case-insensitive substring rules,
first match wins, with the private-aided rule taking precedence over the
generic aided rule; blank input maps to "Not available" and unmatched input
to a title-cased echo of the raw string. -/
def classifyManagement (raw : String) : String :=
  let s := strLower raw
  if strContainsSubstr s "private" && strContainsSubstr s "aided" then "Private Aided"
  else if strContainsSubstr s "unaided" then "Private Unaided"
  else if strContainsSubstr s "aided" then "Government Aided"
  else if strContainsSubstr s "central" then "Central Government"
  else if strContainsSubstr s "local" then "Local Body"
  else if strContainsSubstr s "gov" then "Government"
  else if strTrim raw = "" then "Not available"
  else titleCase raw

/-- Names of the rows of a scored result, in order. -/
def outNames (l : List ScoredRecord) : List String :=
  l.map (fun x => x.row.school_name)

/-- Names of scored `(choice, score)` pairs, in order. -/
def namesOfPairs (l : List (String × Nat)) : List String :=
  l.map Prod.fst

/-- Concrete record builder used for witnesses and counterexamples: a record
with the given name and district, as `load_data` would produce it. -/
def mkRecord (nm dist : String) : Record :=
  { school_name := nm
    village := ""
    district := dist
    block := ""
    state_mgmt := ""
    school_category := ""
    school_type := ""
    school_status := ""
    udise_code := ""
    school_name_lower := strLower nm
    village_lower := "" }

/-- Concrete deterministic scorer for witnesses: 100 on an exact match,
otherwise 50. -/
def eqScorer (q c : String) : Nat :=
  if q = c then 100 else 50

/-- Concrete deterministic scorer for the cap counterexample: the name
"Dup" scores 80, every other name scores 100. -/
def capScorer (_q c : String) : Nat :=
  if c = "Dup" then 80 else 100

/-- Candidate set for the cap counterexample: five distinct names plus a
name duplicated across two rows. -/
def capDf : List Record :=
  [mkRecord "School One" "d", mkRecord "School Two" "d", mkRecord "School Three" "d",
   mkRecord "School Four" "d", mkRecord "School Five" "d",
   mkRecord "Dup" "d", mkRecord "Dup" "e"]

/-- Concrete deterministic scorer for the regex counterexample: every
candidate scores 100. -/
def constScorer (_q _c : String) : Nat := 100

/-- Candidate set for the regex counterexample: under the query "g.vt" the
shadow name "govt high" regex-matches but neither shadow name contains the
query as a literal substring. -/
def reDf : List Record :=
  [mkRecord "Govt High" "d", mkRecord "Beta" "d"]

/-! ### Supporting lemmas -/

/-- Lookup hits are actual bindings of the association list. -/
theorem dictGet_mem : ∀ {l : List (String × Nat)} {k : String} {v : Nat},
    dictGet l k = some v → (k, v) ∈ l := by
  intro l
  induction l with
  | nil => intro k v h; simp [dictGet] at h
  | cons p rest ih =>
    intro k v h
    obtain ⟨k', v'⟩ := p
    simp only [dictGet] at h
    cases hrest : dictGet rest k with
    | some w =>
      rw [hrest] at h
      cases h
      exact List.mem_cons_of_mem _ (ih hrest)
    | none =>
      rw [hrest] at h
      by_cases hk : k' = k
      · rw [if_pos hk] at h
        cases h
        subst hk
        exact List.mem_cons_self _ _
      · rw [if_neg hk] at h
        cases h

/-- Lookup succeeds on every key that occurs in the association list. -/
theorem dictGet_isSome : ∀ {l : List (String × Nat)} {k : String},
    k ∈ l.map Prod.fst → ∃ v, dictGet l k = some v := by
  intro l
  induction l with
  | nil => intro k h; simp at h
  | cons p rest ih =>
    intro k h
    obtain ⟨k', v'⟩ := p
    cases hrest : dictGet rest k with
    | some w => exact ⟨w, by simp only [dictGet, hrest]⟩
    | none =>
      simp only [List.map_cons, List.mem_cons] at h
      rcases h with h | h
      · exact ⟨v', by simp only [dictGet, hrest]; rw [if_pos h.symm]⟩
      · obtain ⟨w, hw⟩ := ih h
        rw [hw] at hrest
        cases hrest

/-- Every pair produced by the extraction step scores its own choice. -/
theorem mem_matchesOf_facts {scorer : String → String → Nat} {q : String}
    {df : List Record} {p : String × Nat} (h : p ∈ matchesOf scorer q df) :
    p.2 = scorer q p.1 ∧ p.1 ∈ choicesOf df := by
  have h1 : p ∈ List.insertionSort descPair
      ((choicesOf df).map (fun c => (c, scorer q c))) :=
    (List.take_sublist _ _).subset h
  have h2 : p ∈ (choicesOf df).map (fun c => (c, scorer q c)) :=
    (List.mem_insertionSort descPair).mp h1
  obtain ⟨c, hc, hcp⟩ := List.mem_map.mp h2
  cases hcp
  exact ⟨rfl, hc⟩

/-- Membership in the threshold-filtered list. -/
theorem mem_goodOf {scorer : String → String → Nat} {q : String} {df : List Record}
    {t : Nat} {p : String × Nat} (h : p ∈ goodOf scorer q df t) :
    p ∈ matchesOf scorer q df ∧ t ≤ p.2 := by
  have := List.mem_filter.mp h
  exact ⟨this.1, of_decide_eq_true this.2⟩

/-- Every entry of `good_sorted` scores its own name, meets the threshold,
and names an actual candidate. -/
theorem mem_goodSortedOf_facts {scorer : String → String → Nat} {q : String}
    {df : List Record} {t m : Nat} {p : String × Nat}
    (h : p ∈ goodSortedOf scorer q df t m) :
    p.2 = scorer q p.1 ∧ t ≤ p.2 ∧ p.1 ∈ choicesOf df := by
  have h1 : p ∈ List.insertionSort descPair (goodOf scorer q df t) :=
    (List.take_sublist _ _).subset h
  have h2 : p ∈ goodOf scorer q df t := (List.mem_insertionSort descPair).mp h1
  obtain ⟨hm, ht⟩ := mem_goodOf h2
  obtain ⟨hs, hc⟩ := mem_matchesOf_facts hm
  exact ⟨hs, ht, hc⟩

/-- The score dict always resolves a matched name to its own score. -/
theorem dictGet_goodSorted {scorer : String → String → Nat} {q : String}
    {df : List Record} {t m : Nat} {n : String}
    (h : n ∈ matchedNamesOf scorer q df t m) :
    dictGet (goodSortedOf scorer q df t m) n = some (scorer q n) := by
  obtain ⟨v, hv⟩ := dictGet_isSome (l := goodSortedOf scorer q df t m) h
  have hmem : (n, v) ∈ goodSortedOf scorer q df t m := dictGet_mem hv
  have := (mem_goodSortedOf_facts hmem).1
  simp only at this
  rw [hv, this]

/-- Facts about every scored result row: it comes from the candidate set, its
name was matched, and its attached score is the scorer's value on its name,
which meets the threshold. -/
theorem mem_scoredRowsOf_facts {scorer : String → String → Nat} {q : String}
    {df : List Record} {t m : Nat} {x : ScoredRecord}
    (h : x ∈ scoredRowsOf scorer q df t m) :
    x.row ∈ df ∧ x.row.school_name ∈ matchedNamesOf scorer q df t m ∧
      x.match_score = scorer q x.row.school_name ∧ t ≤ x.match_score := by
  obtain ⟨r, hr, hx⟩ := List.mem_map.mp h
  have hf := List.mem_filter.mp hr
  have hnm : r.school_name ∈ matchedNamesOf scorer q df t m := of_decide_eq_true hf.2
  cases hx
  refine ⟨hf.1, hnm, ?_, ?_⟩
  · simp only [dictGet_goodSorted hnm, Option.getD_some]
  · obtain ⟨v, hv⟩ := dictGet_isSome (l := goodSortedOf scorer q df t m) hnm
    have hmem := dictGet_mem hv
    have hfacts := mem_goodSortedOf_facts hmem
    simp only [dictGet_goodSorted hnm, Option.getD_some]
    have : v = scorer q r.school_name := hfacts.1
    rw [← this]
    exact hfacts.2.1

/-- Deduplication yields a sublist of its input. -/
theorem dropDupAux_sublist : ∀ (seen : List String) (l : List ScoredRecord),
    List.Sublist (dropDupAux seen l) l := by
  intro seen l
  induction l generalizing seen with
  | nil => exact List.Sublist.refl []
  | cons x xs ih =>
    simp only [dropDupAux]
    by_cases h : x.row.school_name ∈ seen
    · rw [if_pos h]
      exact (ih seen).cons x
    · rw [if_neg h]
      exact (ih _).cons₂ x

/-- After deduplication the names are pairwise distinct and avoid `seen`. -/
theorem dropDupAux_names : ∀ (seen : List String) (l : List ScoredRecord),
    (outNames (dropDupAux seen l)).Nodup ∧
      ∀ x ∈ dropDupAux seen l, x.row.school_name ∉ seen := by
  intro seen l
  induction l generalizing seen with
  | nil => simp [dropDupAux, outNames]
  | cons y ys ih =>
    simp only [dropDupAux]
    by_cases h : y.row.school_name ∈ seen
    · rw [if_pos h]
      exact ih seen
    · rw [if_neg h]
      obtain ⟨hnd, hns⟩ := ih (y.row.school_name :: seen)
      constructor
      · simp only [outNames, List.map_cons, List.nodup_cons]
        refine ⟨?_, hnd⟩
        intro hmem
        obtain ⟨x, hx, hxn⟩ := List.mem_map.mp hmem
        exact hns x hx (by rw [hxn]; exact List.mem_cons_self _ _)
      · intro x hx
        rcases List.mem_cons.mp hx with rfl | hx'
        · exact h
        · intro hxs
          exact hns x hx' (List.mem_cons_of_mem _ hxs)

/-- Every name present in the input to deduplication survives (on some row). -/
theorem dropDupAux_keeps : ∀ (seen : List String) (l : List ScoredRecord)
    (x : ScoredRecord), x ∈ l → x.row.school_name ∉ seen →
    ∃ k ∈ dropDupAux seen l, k.row.school_name = x.row.school_name := by
  intro seen l
  induction l generalizing seen with
  | nil => intro x hx; simp at hx
  | cons y ys ih =>
    intro x hx hns
    simp only [dropDupAux]
    by_cases h : y.row.school_name ∈ seen
    · rw [if_pos h]
      rcases List.mem_cons.mp hx with rfl | hx'
      · exact absurd h hns
      · exact ih seen x hx' hns
    · rw [if_neg h]
      by_cases hxy : x.row.school_name = y.row.school_name
      · exact ⟨y, List.mem_cons_self _ _, hxy.symm⟩
      · rcases List.mem_cons.mp hx with rfl | hx'
        · exact absurd rfl hxy
        · obtain ⟨k, hk, hkn⟩ := ih _ x hx' (by
            intro hmem
            rcases List.mem_cons.mp hmem with he | hs
            · exact hxy he
            · exact hns hs)
          exact ⟨k, List.mem_cons_of_mem _ hk, hkn⟩

/-- The ranker either returns nothing or deduplicates the sorted scored rows
of a non-blank query. -/
theorem fuzzy_eq_cases (scorer : String → String → Nat) (nq : Option String)
    (df : List Record) (t m : Nat) :
    fuzzy_search_in_df scorer nq df t m = [] ∨
    ∃ q, nq = some q ∧ strTrim q ≠ "" ∧
      fuzzy_search_in_df scorer nq df t m =
        drop_duplicates (sortedScoredOf scorer q df t m) := by
  cases nq with
  | none => exact Or.inl rfl
  | some q =>
    by_cases hq : strTrim q = ""
    · exact Or.inl (by simp [fuzzy_search_in_df, hq])
    · by_cases hg : (goodSortedOf scorer q df t m).isEmpty = true
      · exact Or.inl (by simp [fuzzy_search_in_df, hq, hg])
      · exact Or.inr ⟨q, rfl, hq, by simp [fuzzy_search_in_df, hq, hg]⟩

/-- Every returned row is one of the scored rows of the query. -/
theorem mem_fuzzy {scorer : String → String → Nat} {nq : Option String}
    {df : List Record} {t m : Nat} {x : ScoredRecord}
    (h : x ∈ fuzzy_search_in_df scorer nq df t m) :
    ∃ q, nq = some q ∧ x ∈ scoredRowsOf scorer q df t m := by
  rcases fuzzy_eq_cases scorer nq df t m with hnil | ⟨q, hsome, hq, heq⟩
  · rw [hnil] at h; simp at h
  · rw [heq] at h
    have h1 : x ∈ sortedScoredOf scorer q df t m :=
      (dropDupAux_sublist [] _).subset h
    exact ⟨q, hsome, (List.mem_insertionSort descRow).mp h1⟩

/-- The ranker returns nothing on an empty candidate set. -/
theorem fuzzy_nil (scorer : String → String → Nat) (nq : Option String) (t m : Nat) :
    fuzzy_search_in_df scorer nq [] t m = [] := by
  cases nq with
  | none => rfl
  | some q =>
    by_cases hq : strTrim q = ""
    · simp [fuzzy_search_in_df, hq]
    · simp [fuzzy_search_in_df, hq, goodSortedOf, goodOf, matchesOf, extractMatches,
        choicesOf]

/-- A query scoring below threshold on every candidate returns nothing. -/
theorem fuzzy_empty_of_low {scorer : String → String → Nat} {q : String}
    {df : List Record} {t : Nat} (m : Nat)
    (hall : ∀ r ∈ df, scorer q r.school_name < t) :
    fuzzy_search_in_df scorer (some q) df t m = [] := by
  have hgood : goodOf scorer q df t = [] := by
    rw [goodOf, List.filter_eq_nil_iff]
    intro p hp
    obtain ⟨hs, hc⟩ := mem_matchesOf_facts hp
    obtain ⟨r, hr, hrn⟩ := List.mem_map.mp hc
    have hlow : scorer q p.1 < t := by rw [← hrn]; exact hall r hr
    simp only [decide_eq_true_eq]
    omega
  have hgs : goodSortedOf scorer q df t m = [] := by
    simp [goodSortedOf, hgood]
  by_cases hq : strTrim q = ""
  · simp [fuzzy_search_in_df, hq]
  · simp [fuzzy_search_in_df, hq, hgs]

/-- A list of pairwise-distinct entries drawn from another list is no longer
than that list. -/
theorem nodup_length_le {l l' : List String} (h : l.Nodup)
    (hs : ∀ a ∈ l, a ∈ l') : l.length ≤ l'.length := by
  calc l.length = l.toFinset.card := (List.toFinset_card_of_nodup h).symm
    _ ≤ l'.toFinset.card := by
        apply Finset.card_le_card
        intro a ha
        exact List.mem_toFinset.mpr (hs a (List.mem_toFinset.mp ha))
    _ ≤ l'.length := List.toFinset_card_le l'

/-- The ranker returns at most `max_results` rows. -/
theorem fuzzy_length_le (scorer : String → String → Nat) (nq : Option String)
    (df : List Record) (t m : Nat) :
    (fuzzy_search_in_df scorer nq df t m).length ≤ m := by
  rcases fuzzy_eq_cases scorer nq df t m with hnil | ⟨q, hsome, hq, heq⟩
  · rw [hnil]; exact Nat.zero_le m
  · rw [heq]
    have hnd : (outNames (drop_duplicates (sortedScoredOf scorer q df t m))).Nodup :=
      (dropDupAux_names [] _).1
    have hsub : ∀ n ∈ outNames (drop_duplicates (sortedScoredOf scorer q df t m)),
        n ∈ matchedNamesOf scorer q df t m := by
      intro n hn
      obtain ⟨x, hx, hxn⟩ := List.mem_map.mp hn
      have h1 : x ∈ sortedScoredOf scorer q df t m :=
        (dropDupAux_sublist [] _).subset hx
      have h2 : x ∈ scoredRowsOf scorer q df t m :=
        (List.mem_insertionSort descRow).mp h1
      rw [← hxn]
      exact (mem_scoredRowsOf_facts h2).2.1
    have hlen : (outNames (drop_duplicates (sortedScoredOf scorer q df t m))).length ≤
        (matchedNamesOf scorer q df t m).length := nodup_length_le hnd hsub
    have h1 : (drop_duplicates (sortedScoredOf scorer q df t m)).length ≤
        (matchedNamesOf scorer q df t m).length := by
      rw [outNames, List.length_map] at hlen
      exact hlen
    have h2 : (matchedNamesOf scorer q df t m).length ≤ m := by
      rw [matchedNamesOf, List.length_map, goodSortedOf]
      exact List.length_take_le m _
    omega

/-- Every sorted scored row has a surviving representative of the same name
with at least its score in the final result. -/
theorem exists_kept {scorer : String → String → Nat} {q : String}
    {df : List Record} {t m : Nat} {x : ScoredRecord}
    (hq : strTrim q ≠ "") (hx : x ∈ sortedScoredOf scorer q df t m) :
    ∃ k ∈ fuzzy_search_in_df scorer (some q) df t m,
      k.row.school_name = x.row.school_name ∧ x.match_score ≤ k.match_score := by
  have hxs : x ∈ scoredRowsOf scorer q df t m :=
    (List.mem_insertionSort descRow).mp hx
  have hfacts := mem_scoredRowsOf_facts hxs
  have hne : (goodSortedOf scorer q df t m).isEmpty ≠ true := by
    intro hy
    have : goodSortedOf scorer q df t m = [] := List.isEmpty_iff.mp hy
    have : matchedNamesOf scorer q df t m = [] := by
      rw [matchedNamesOf, this]; rfl
    rw [this] at hfacts
    exact (List.not_mem_nil _) hfacts.2.1
  have heq : fuzzy_search_in_df scorer (some q) df t m =
      drop_duplicates (sortedScoredOf scorer q df t m) := by
    simp [fuzzy_search_in_df, hq, hne]
  obtain ⟨k, hk, hkn⟩ :=
    dropDupAux_keeps [] (sortedScoredOf scorer q df t m) x hx (List.not_mem_nil _)
  have hks : k ∈ scoredRowsOf scorer q df t m :=
    (List.mem_insertionSort descRow).mp ((dropDupAux_sublist [] _).subset hk)
  have hkfacts := mem_scoredRowsOf_facts hks
  refine ⟨k, by rw [heq]; exact hk, hkn, ?_⟩
  rw [hfacts.2.2.1, hkfacts.2.2.1, hkn]

/-- Lowercasing sends whitespace characters to whitespace characters. -/
theorem toLower_whitespace {c : Char} (h : c.isWhitespace = true) :
    (Char.toLower c).isWhitespace = true := by
  simp only [Char.isWhitespace, Bool.or_eq_true, decide_eq_true_eq] at h
  rcases h with ((h | h) | h) | h <;> (subst h; decide)

/-- A string that strips to empty consists of whitespace only. -/
theorem all_whitespace_of_trim_eq_nil {s : String} (h : strTrim s = "") :
    ∀ a ∈ s.data, a.isWhitespace = true := by
  have hdata : trimChars s.data = [] := congrArg String.data h
  have hdrop : (s.data.dropWhile Char.isWhitespace).reverse.dropWhile
      Char.isWhitespace = [] := by
    rw [trimChars] at hdata
    exact List.reverse_eq_nil_iff.mp hdata
  have hrev : ∀ a ∈ (s.data.dropWhile Char.isWhitespace).reverse,
      a.isWhitespace = true := List.dropWhile_eq_nil_iff.mp hdrop
  have hdw : ∀ a ∈ s.data.dropWhile Char.isWhitespace, a.isWhitespace = true := by
    intro a ha
    exact hrev a (List.mem_reverse.mpr ha)
  intro a ha
  rw [← List.takeWhile_append_dropWhile (p := Char.isWhitespace) (l := s.data)] at ha
  rcases List.mem_append.mp ha with ht | hd
  · exact List.mem_takeWhile_imp ht
  · exact hdw a hd

/-- The head of a contained pattern occurs in the containing list. -/
theorem hasSub_head_mem {c : Char} {p : List Char} :
    ∀ {l : List Char}, listHasSub (c :: p) l = true → c ∈ l := by
  intro l
  induction l with
  | nil => intro h; simp [listHasSub, listIsPre] at h
  | cons b bs ih =>
    intro h
    rcases Bool.or_eq_true_iff.mp h with h1 | h2
    · have hcb : c = b := by
        simp only [listIsPre, Bool.and_eq_true, decide_eq_true_eq] at h1
        exact h1.1
      rw [hcb]
      exact List.mem_cons_self _ _
    · exact List.mem_cons_of_mem _ (ih h2)

/-- A blank (whitespace-only) string contains no pattern whose first
character is not whitespace. -/
theorem blank_no_sub {raw pat : String} {c : Char} {p : List Char}
    (hp : pat.data = c :: p) (hc : c.isWhitespace = false)
    (h : strTrim raw = "") : strContainsSubstr (strLower raw) pat = false := by
  by_contra hne
  have htrue : strContainsSubstr (strLower raw) pat = true :=
    Bool.not_eq_false _ |>.mp hne
  rw [strContainsSubstr, hp] at htrue
  have hmem : c ∈ (strLower raw).data := hasSub_head_mem htrue
  have hmap : c ∈ raw.data.map Char.toLower := hmem
  obtain ⟨a, ha, hac⟩ := List.mem_map.mp hmap
  have hwa : a.isWhitespace = true := all_whitespace_of_trim_eq_nil h a ha
  have : c.isWhitespace = true := by rw [← hac]; exact toLower_whitespace hwa
  rw [this] at hc
  cases hc

/-! ### Claim theorems -/

/-- C1: for every query, candidate set, threshold and maxResults, the Match
Ranker (`fuzzy_search_in_df`) returns at most `max_results` rows (the default
cap `MAX_RESULTS` is 5), every returned row's score is at least the threshold
(the default `SCORE_THRESHOLD` is 75), and if every candidate scores below
the threshold the returned sequence is empty. -/
theorem C1_result_cap_and_threshold (scorer : String → String → Nat)
    (nq : Option String) (df : List Record) (t m : Nat) :
    SCORE_THRESHOLD = 75 ∧ MAX_RESULTS = 5 ∧
    (fuzzy_search_in_df scorer nq df t m).length ≤ m ∧
    (∀ x ∈ fuzzy_search_in_df scorer nq df t m, t ≤ x.match_score) ∧
    ((∀ q, nq = some q → ∀ r ∈ df, scorer q r.school_name < t) →
      fuzzy_search_in_df scorer nq df t m = []) := by
  refine ⟨rfl, rfl, fuzzy_length_le scorer nq df t m, ?_, ?_⟩
  · intro x hx
    obtain ⟨q, hsome, hxs⟩ := mem_fuzzy hx
    exact (mem_scoredRowsOf_facts hxs).2.2.2
  · intro hall
    cases nq with
    | none => rfl
    | some q => exact fuzzy_empty_of_low m (hall q rfl)

/-- Witness for C1 at a concrete input: a single candidate scoring 50 under
threshold 75 yields an empty result. -/
theorem C1_witness :
    fuzzy_search_in_df eqScorer (some "x") [mkRecord "A" "d"] 75 5 = [] := by
  apply (C1_result_cap_and_threshold eqScorer (some "x") [mkRecord "A" "d"] 75 5).2.2.2.2
  intro q hq r hr
  obtain rfl := Option.some.inj hq
  obtain rfl := List.mem_singleton.mp hr
  decide

/-- C5: the returned sequence is sorted in descending order of score, and
only rows named by the first `max_results` scored matches are kept. -/
theorem C5_sorted_and_capped (scorer : String → String → Nat) (nq : Option String)
    (df : List Record) (t m : Nat) :
    List.Sorted descRow (fuzzy_search_in_df scorer nq df t m) ∧
    (fuzzy_search_in_df scorer nq df t m).length ≤ m ∧
    (∀ q, nq = some q → ∀ x ∈ fuzzy_search_in_df scorer nq df t m,
      x.row.school_name ∈ matchedNamesOf scorer q df t m) := by
  refine ⟨?_, fuzzy_length_le scorer nq df t m, ?_⟩
  · rcases fuzzy_eq_cases scorer nq df t m with hnil | ⟨q, hsome, hq, heq⟩
    · rw [hnil]; exact List.sorted_nil
    · rw [heq]
      exact List.Pairwise.sublist (dropDupAux_sublist [] _)
        (List.sorted_insertionSort descRow _)
  · intro q hsome x hx
    obtain ⟨q', hsome', hxs⟩ := mem_fuzzy hx
    rw [hsome] at hsome'
    obtain rfl := Option.some.inj hsome'
    exact (mem_scoredRowsOf_facts hxs).2.1

/-- Witness for C5 at a concrete input: one exact-match candidate. -/
theorem C5_witness :
    (fuzzy_search_in_df eqScorer (some "A") [mkRecord "A" "d"] 75 5).length ≤ 5 ∧
    "A" ∈ matchedNamesOf eqScorer "A" [mkRecord "A" "d"] 75 5 := by
  refine ⟨(C5_sorted_and_capped eqScorer (some "A") [mkRecord "A" "d"] 75 5).2.1, ?_⟩
  exact (C5_sorted_and_capped eqScorer (some "A") [mkRecord "A" "d"] 75 5).2.2
    "A" rfl { row := (mkRecord "A" "d"), match_score := 100 } (by decide)

/-- C6: a `None` query or a whitespace-only query yields an empty result
without invoking the scorer (the result does not depend on the scorer). -/
theorem C6_blank_query (scorer scorer' : String → String → Nat)
    (df : List Record) (t m : Nat) :
    fuzzy_search_in_df scorer none df t m = [] ∧
    ∀ q, strTrim q = "" →
      fuzzy_search_in_df scorer (some q) df t m = [] ∧
      fuzzy_search_in_df scorer (some q) df t m =
        fuzzy_search_in_df scorer' (some q) df t m := by
  refine ⟨rfl, ?_⟩
  intro q hq
  constructor <;> simp [fuzzy_search_in_df, hq]

/-- Witness for C6 at a concrete input: the query `" "` strips to empty. -/
theorem C6_witness :
    fuzzy_search_in_df eqScorer (some " ") [mkRecord "A" "d"] 75 5 = [] ∧
    fuzzy_search_in_df eqScorer (some " ") [mkRecord "A" "d"] 75 5 =
      fuzzy_search_in_df capScorer (some " ") [mkRecord "A" "d"] 75 5 :=
  (C6_blank_query eqScorer capScorer [mkRecord "A" "d"] 75 5).2 " " (by decide)

/-- C7: for a non-sentinel district the filter returns a sublist of the
dataset in which every record's district, after trimming, case-insensitively
equals the (trimmed) selection; the sentinel "All Districts" is a no-op. -/
theorem C7_district_filter (df : List Record) (d : String) :
    List.Sublist (filterByDistrict df d) df ∧
    (d ≠ "All Districts" → ∀ r ∈ filterByDistrict df d,
      strLower (strTrim r.district) = strLower (strTrim d)) ∧
    filterByDistrict df "All Districts" = df := by
  refine ⟨?_, ?_, by simp [filterByDistrict]⟩
  · rw [filterByDistrict]
    split
    · exact List.filter_sublist df
    · exact List.Sublist.refl df
  · intro hd r hr
    rw [filterByDistrict, if_pos hd] at hr
    exact of_decide_eq_true (List.mem_filter.mp hr).2

/-- Witness for C7 at a concrete input: selection " mysuru" matches the
record district "Mysuru" case-insensitively after trimming. -/
theorem C7_witness :
    strLower (strTrim (mkRecord "A" "Mysuru").district) = strLower (strTrim " mysuru") :=
  (C7_district_filter [mkRecord "A" "Mysuru"] " mysuru").2.1 (by decide)
    (mkRecord "A" "Mysuru") (by decide)

/-- C8: the ranker is a deterministic pure function of
(scorer, query, candidates, threshold, maxResults): equal inputs give equal
ordered outputs.  (In this embedding `fuzzy_search_in_df` is a function and
the candidate list is immutable, which is the shallow rendering of "no side
effects on the candidate Dataset".) -/
theorem C8_determinism (s1 s2 : String → String → Nat) (nq1 nq2 : Option String)
    (df1 df2 : List Record) (t1 t2 m1 m2 : Nat) (hs : s1 = s2) (hq : nq1 = nq2)
    (hdf : df1 = df2) (ht : t1 = t2) (hm : m1 = m2) :
    fuzzy_search_in_df s1 nq1 df1 t1 m1 = fuzzy_search_in_df s2 nq2 df2 t2 m2 := by
  subst hs; subst hq; subst hdf; subst ht; subst hm; rfl

/-- Witness for C8 at a concrete input. -/
theorem C8_witness :
    fuzzy_search_in_df eqScorer (some "A") [mkRecord "A" "d"] 75 5 =
      fuzzy_search_in_df eqScorer (some "A") [mkRecord "A" "d"] 75 5 :=
  C8_determinism eqScorer eqScorer (some "A") (some "A") [mkRecord "A" "d"]
    [mkRecord "A" "d"] 75 75 5 5 rfl rfl rfl rfl rfl

/-- On a pattern free of regex metacharacters the anchored fragment match is
literal prefix comparison. -/
theorem reIsPre_eq_listIsPre {p : List Char} (h : ∀ c ∈ p, c ∉ regexMetaChars) :
    ∀ l : List Char, reIsPre p l = listIsPre p l := by
  induction p with
  | nil => intro l; cases l <;> rfl
  | cons a ps ih =>
    intro l
    have ha : ¬ a = '.' := by
      intro he
      exact h a (List.mem_cons_self _ _) (by rw [he]; decide)
    have hps : ∀ c ∈ ps, c ∉ regexMetaChars :=
      fun c hc => h c (List.mem_cons_of_mem _ hc)
    cases l with
    | nil => rfl
    | cons b bs =>
      simp only [reIsPre, listIsPre, charMatches, if_neg ha, ih hps bs]

/-- On a pattern free of regex metacharacters the fragment search is literal
substring search. -/
theorem reHasMatch_eq_listHasSub {p : List Char} (h : ∀ c ∈ p, c ∉ regexMetaChars) :
    ∀ l : List Char, reHasMatch p l = listHasSub p l := by
  intro l
  induction l with
  | nil => simp only [reHasMatch, listHasSub, reIsPre_eq_listIsPre h]
  | cons b bs ih => simp only [reHasMatch, listHasSub, reIsPre_eq_listIsPre h, ih]

/-- On a pattern free of regex metacharacters the embedded `str.contains`
test coincides with literal substring containment. -/
theorem reContains_eq_strContainsSubstr {s pat : String}
    (h : ∀ c ∈ pat.data, c ∉ regexMetaChars) :
    reContains s pat = strContainsSubstr s pat :=
  reHasMatch_eq_listHasSub h s.data

/-- C2 (amended): for a non-empty trimmed query within the modelled regex
fragment, the search is two-phase, with the fast-path test a
regular-expression search (pandas `str.contains`) of the stripped, lowercased
query against each candidate's lowercased shadow name: if at least one
candidate's shadow name matches, scoring is restricted to exactly the
matching subset, otherwise the full candidate set is scored; for queries
free of regex metacharacters the matching test coincides with
case-insensitive substring containment, recovering the original claim on
those queries. -/
theorem C2_two_phase (scorer : String → String → Nat) (query : String)
    (subset : List Record) (_hq : strTrim query ≠ "")
    (_hfrag : inModelledFragment (strLower (strTrim query)).data = true) :
    ((∃ r ∈ subset,
        reContains r.school_name_lower (strLower (strTrim query)) = true) →
      performSearch scorer query subset =
        fuzzy_search_in_df scorer (some query)
          (subset.filter (fun r =>
            reContains r.school_name_lower (strLower (strTrim query))))
          SCORE_THRESHOLD MAX_RESULTS) ∧
    ((∀ r ∈ subset,
        reContains r.school_name_lower (strLower (strTrim query)) = false) →
      performSearch scorer query subset =
        fuzzy_search_in_df scorer (some query) subset SCORE_THRESHOLD MAX_RESULTS) ∧
    (∀ s : String, (∀ c ∈ (strLower (strTrim query)).data, c ∉ regexMetaChars) →
      reContains s (strLower (strTrim query)) =
        strContainsSubstr s (strLower (strTrim query))) := by
  refine ⟨?_, ?_, ?_⟩
  · rintro ⟨r, hr, hc⟩
    have hsub : subset.isEmpty = false := by
      cases subset with
      | nil => cases hr
      | cons a l => rfl
    have hhit : r ∈ subset.filter (fun r =>
        reContains r.school_name_lower (strLower (strTrim query))) :=
      List.mem_filter.mpr ⟨hr, hc⟩
    have hne : (subset.filter (fun r =>
        reContains r.school_name_lower (strLower (strTrim query)))).isEmpty
          = false := by
      cases hfil : subset.filter (fun r =>
          reContains r.school_name_lower (strLower (strTrim query))) with
      | nil => rw [hfil] at hhit; cases hhit
      | cons a l => rfl
    simp [performSearch, hsub, hne]
  · intro hall
    have hfil : subset.filter (fun r =>
        reContains r.school_name_lower (strLower (strTrim query))) = [] :=
      List.filter_eq_nil_iff.mpr (fun a ha => by
        rw [hall a ha]; exact Bool.false_ne_true)
    cases subset with
    | nil => exact (fuzzy_nil scorer (some query) SCORE_THRESHOLD MAX_RESULTS).symm
    | cons a l => simp [performSearch, hfil]
  · intro s hmeta
    exact reContains_eq_strContainsSubstr hmeta

/-- Witness for C2 at a concrete input: the query "a" (metacharacter-free)
matches the lowered name "abc", so the fast path is taken, and on it the
regex test agrees with substring containment. -/
theorem C2_witness :
    performSearch eqScorer "a" [mkRecord "Abc" "d"] =
      fuzzy_search_in_df eqScorer (some "a")
        ([mkRecord "Abc" "d"].filter (fun r =>
          reContains r.school_name_lower (strLower (strTrim "a"))))
        SCORE_THRESHOLD MAX_RESULTS ∧
    reContains "abc" (strLower (strTrim "a")) =
      strContainsSubstr "abc" (strLower (strTrim "a")) :=
  ⟨(C2_two_phase eqScorer "a" [mkRecord "Abc" "d"] (by decide) (by decide)).1
     ⟨mkRecord "Abc" "d", by decide, by decide⟩,
   (C2_two_phase eqScorer "a" [mkRecord "Abc" "d"] (by decide) (by decide)).2.2
     "abc" (by decide)⟩

/-- C2 counterexample to the claim as stated: for the query "g.vt" neither
candidate's lowercased shadow name contains the stripped, lowercased query
as a substring — so the claim requires the full candidate set to be scored —
yet the program's result differs from scoring the full candidate set: the
regex test of line 139 matches the shadow name "govt high" ('.' matches
'o'), and scoring is restricted to that candidate alone. -/
theorem C2_counterexample :
    strContainsSubstr (mkRecord "Govt High" "d").school_name_lower
      (strLower (strTrim "g.vt")) = false ∧
    strContainsSubstr (mkRecord "Beta" "d").school_name_lower
      (strLower (strTrim "g.vt")) = false ∧
    performSearch constScorer "g.vt" reDf ≠
      fuzzy_search_in_df constScorer (some "g.vt") reDf SCORE_THRESHOLD MAX_RESULTS ∧
    performSearch constScorer "g.vt" reDf =
      fuzzy_search_in_df constScorer (some "g.vt") [mkRecord "Govt High" "d"]
        SCORE_THRESHOLD MAX_RESULTS := by
  decide

/-- C10: the attached score is a function of the row's name alone, so rows
with identical names always carry identical scores within one invocation,
and deduplication never discards a row scoring strictly above the row kept
for its name. -/
theorem C10_name_keyed_scores (scorer : String → String → Nat) (q : String)
    (df : List Record) (t m : Nat) :
    (∀ x ∈ scoredRowsOf scorer q df t m, ∀ y ∈ scoredRowsOf scorer q df t m,
      x.row.school_name = y.row.school_name → x.match_score = y.match_score) ∧
    (strTrim q ≠ "" → ∀ x ∈ sortedScoredOf scorer q df t m,
      ∃ k ∈ fuzzy_search_in_df scorer (some q) df t m,
        k.row.school_name = x.row.school_name ∧ x.match_score ≤ k.match_score) := by
  constructor
  · intro x hx y hy hname
    rw [(mem_scoredRowsOf_facts hx).2.2.1, (mem_scoredRowsOf_facts hy).2.2.1, hname]
  · intro hq x hx
    exact exists_kept hq hx

/-- Witness for C10 at a concrete input: two rows named "A" carry the same
score. -/
theorem C10_witness :
    ScoredRecord.match_score { row := (mkRecord "A" "d"), match_score := 100 } =
      ScoredRecord.match_score { row := (mkRecord "A" "e"), match_score := 100 } :=
  (C10_name_keyed_scores eqScorer "A" [mkRecord "A" "d", mkRecord "A" "e"] 75 5).1
    { row := (mkRecord "A" "d"), match_score := 100 } (by decide)
    { row := (mkRecord "A" "e"), match_score := 100 } (by decide) rfl

/-- C4 (amended): output names are pairwise distinct; when a name of the
candidate set is among the matched (top `max_results`) names, exactly one
record with that name survives — it exists, and by distinctness it is unique
— and every returned row's score is at least the score of every surviving
`good` entry bearing its name (in fact equal). -/
theorem C4_dedup (scorer : String → String → Nat) (nq : Option String)
    (df : List Record) (t m : Nat) :
    (outNames (fuzzy_search_in_df scorer nq df t m)).Nodup ∧
    (∀ q, nq = some q → strTrim q ≠ "" → ∀ r ∈ df,
      r.school_name ∈ matchedNamesOf scorer q df t m →
      ∃ x ∈ fuzzy_search_in_df scorer nq df t m,
        x.row.school_name = r.school_name) ∧
    (∀ q, nq = some q → ∀ x ∈ fuzzy_search_in_df scorer nq df t m,
      ∀ p ∈ goodOf scorer q df t, p.1 = x.row.school_name →
        p.2 ≤ x.match_score) := by
  refine ⟨?_, ?_, ?_⟩
  · rcases fuzzy_eq_cases scorer nq df t m with hnil | ⟨q, hsome, hq, heq⟩
    · rw [hnil]; simp [outNames]
    · rw [heq]; exact (dropDupAux_names [] _).1
  · rintro q rfl hq r hr hmn
    have hrr : r ∈ resultRowsOf scorer q df t m :=
      List.mem_filter.mpr ⟨hr, decide_eq_true hmn⟩
    have hsc :
        ({ row := r
           match_score :=
             (dictGet (goodSortedOf scorer q df t m) r.school_name).getD 0 } :
          ScoredRecord) ∈ scoredRowsOf scorer q df t m :=
      List.mem_map.mpr ⟨r, hrr, rfl⟩
    have hss := (List.mem_insertionSort descRow).mpr hsc
    obtain ⟨k, hk, hkn, _⟩ := exists_kept hq hss
    exact ⟨k, hk, hkn⟩
  · rintro q rfl x hx p hp hpn
    obtain ⟨q', hsome', hxs⟩ := mem_fuzzy hx
    obtain rfl := Option.some.inj hsome'
    have hfacts := mem_scoredRowsOf_facts hxs
    have hps := (mem_matchesOf_facts (mem_goodOf hp).1).1
    rw [hps, hpn, ← hfacts.2.2.1]

/-- Witness for C4 at a concrete input: the surviving good entry ("A", 100)
scores no higher than the kept row named "A". -/
theorem C4_witness :
    (("A", 100) : String × Nat).2 ≤
      ScoredRecord.match_score { row := (mkRecord "A" "d"), match_score := 100 } :=
  (C4_dedup eqScorer (some "A") [mkRecord "A" "d", mkRecord "A" "e"] 75 5).2.2 "A" rfl
    { row := (mkRecord "A" "d"), match_score := 100 } (by decide) ("A", 100) (by decide) rfl

/-- C4 counterexample to the claim as stated: in `capDf` under `capScorer`,
two candidates named "Dup" survive the threshold filter (the name occurs
twice among the good entries), yet no record named "Dup" appears in the
output, because five higher-scoring distinct names exhaust the cap of 5. -/
theorem C4_counterexample :
    (namesOfPairs (goodOf capScorer "q" capDf 75)).count "Dup" = 2 ∧
    (outNames (fuzzy_search_in_df capScorer (some "q") capDf 75 5)).contains "Dup"
      = false := by
  decide

/-- C9: (spec-modelled) a label containing both "private" and "aided" as
substrings classifies as "Private Aided"; blank input classifies as
"Not available"; input matching no rule echoes as its title-cased self. -/
theorem C9_classify (raw : String) :
    (strContainsSubstr (strLower raw) "private" = true →
     strContainsSubstr (strLower raw) "aided" = true →
     classifyManagement raw = "Private Aided") ∧
    (strTrim raw = "" → classifyManagement raw = "Not available") ∧
    (strTrim raw ≠ "" →
     strContainsSubstr (strLower raw) "aided" = false →
     strContainsSubstr (strLower raw) "unaided" = false →
     strContainsSubstr (strLower raw) "central" = false →
     strContainsSubstr (strLower raw) "local" = false →
     strContainsSubstr (strLower raw) "gov" = false →
     classifyManagement raw = titleCase raw) := by
  refine ⟨?_, ?_, ?_⟩
  · intro h1 h2
    simp [classifyManagement, h1, h2]
  · intro h
    have hpriv := @blank_no_sub raw "private" 'p' ("rivate".data) rfl (by decide) h
    have haid := @blank_no_sub raw "aided" 'a' ("ided".data) rfl (by decide) h
    have hun := @blank_no_sub raw "unaided" 'u' ("naided".data) rfl (by decide) h
    have hcen := @blank_no_sub raw "central" 'c' ("entral".data) rfl (by decide) h
    have hloc := @blank_no_sub raw "local" 'l' ("ocal".data) rfl (by decide) h
    have hgov := @blank_no_sub raw "gov" 'g' ("ov".data) rfl (by decide) h
    simp [classifyManagement, hpriv, haid, hun, hcen, hloc, hgov, h]
  · intro hne h1 h2 h3 h4 h5
    simp [classifyManagement, h1, h2, h3, h4, h5, hne]

/-- Witness for C9 at concrete inputs covering all three conjuncts. -/
theorem C9_witness :
    classifyManagement "Pvt Private Aided" = "Private Aided" ∧
    classifyManagement "  " = "Not available" ∧
    classifyManagement "trust run" = titleCase "trust run" :=
  ⟨(C9_classify "Pvt Private Aided").1 (by decide) (by decide),
   (C9_classify "  ").2.1 (by decide),
   (C9_classify "trust run").2.2 (by decide) (by decide) (by decide) (by decide)
     (by decide) (by decide)⟩

/-- C3 (amended): the default-path load fails softly — a missing or malformed
source yields an empty Dataset with no exception — and the upload path
applies the identical normalization to every successfully read source, but a
failing upload read propagates its exception instead of yielding an empty
Dataset. -/
theorem C3_load_soft_fail :
    load_data none = [] ∧
    (∀ t : List RawRow, load_data (some t) = normalizeTable t) ∧
    (∀ t : List RawRow, uploadIngest (some t) = Except.ok (normalizeTable t)) ∧
    uploadIngest none = Except.error "read failure" :=
  ⟨rfl, fun _ => rfl, fun _ => rfl, rfl⟩

/-- C3 counterexample to the claim as stated: for the upload byte stream, a
missing/malformed source does not produce an empty Dataset — the read error
propagates — while the default path does return the empty Dataset. -/
theorem C3_counterexample :
    uploadIngest none = Except.error "read failure" ∧ load_data none = [] :=
  ⟨rfl, rfl⟩
